import Mathlib

/-!
Verification development for the skipper audio classifier/editor
(skipper.c, skipper.h, tensor-gen.c, lzwlib.h).

The source is shallowly embedded: C int arithmetic is modelled on ℤ
(`Int.tdiv` for C's truncating division, `>>>` for the arithmetic right
shift), byte buffers as `List Nat`, sample buffers as `List Int`, and the
float level signal as exact rationals ℚ (only order comparisons of levels
reach the properties proved here, so the choice of ordered field does not
matter; the hysteresis factor `sqrt(peak/trough)` is passed in as a
parameter `sq` for the same reason).  The LZW codec lives outside the
given sources (lzwlib.h declares it only), so compression and
decompression are abstract function parameters, exactly as the spec
treats them.
-/

set_option maxRecDepth 100000

namespace Skipper

/-! ## Constants (skipper.c lines 70-88, skipper.h lines 22-29) -/

def STEP_MSECS : Int := 200
def WINDOW_SECONDS : Int := 5
def AVERAGE_SECONDS : Int := 5
def CROSSFADE_SECS : Int := 2
def MIN_TALK_SECS : Int := 10
def MIN_MUSIC_SECS : Int := 20
def MAX_PEND_SECS : Int := 60
def OUTPUT_SECONDS : Int := 120
def MAX_CYCLES : Nat := 128

/-- AVERAGE_COUNT = AVERAGE_SECONDS*1000/STEP_MSECS = 25. -/
def AVERAGE_COUNT : Nat := 25

def MODE_NOTHING : Int := 0
def MODE_MUSIC : Int := 1
def MODE_TALK : Int := -1

def SKIP_NOTHING : Int := 0
def SKIP_TALK : Int := 1
def SKIP_MUSIC : Int := 2

/-- Number of bytes of the 4-D tensor: 48·24·16·16 (skipper.h lines 22-27). -/
def TENSOR_BYTES : Nat := 48 * 24 * 16 * 16

/-! ## Crossfades (skipper.c lines 650-660)

`fade_out` walks the buffer with `num_samples` counting down from `n`
(post-decrement: the body that updates element `i` sees the value
`n-1-i`), so element `i` becomes `x * (n-1-i) / n` with C's truncating
`int64_t` division; `fade_in` symmetrically uses
`total_samples - num_samples = i+1`. -/

def fade_out (samples : List Int) : List Int :=
  let n := samples.length
  samples.mapIdx (fun i x => Int.tdiv (x * ((n : Int) - 1 - (i : Int))) (n : Int))

def fade_in (samples : List Int) : List Int :=
  let n := samples.length
  samples.mapIdx (fun i x =>
    Int.tdiv (x * ((n : Int) - ((n : Int) - 1 - (i : Int)))) (n : Int))

/-! ## Keep-alive amplitude scaling (skipper.c lines 545-550)

`crossfade_start = available_samples / 2 - crossfade_buff_len` (frames);
the loop `for (i = 0; i < crossfade_buff_len * 4; ++i) crossfade_ptr[i] >>= 2`
arithmetically right-shifts every int16 value of the `2·L_xf` frames
(4 int16 values per pair of stereo frames) starting there. -/

def keepAliveScale (output : List Int) (available xfLen : Nat) : List Int :=
  let start := (available / 2 - xfLen) * 2
  ((output.drop start).take (xfLen * 4)).map (fun x : Int => x >>> (2 : Nat))

/-! ## AnalysisResult assembly (skipper.c lines 678, 689, 776-781)

`struct analysis_result result` is a stack local whose initial contents
`g` are indeterminate; analyze_window assigns `range_dB`, the three zone
thirds, `attack_ratio`, `peak_jitter` and `cycles`, and then fwrites the
whole 8-byte record.  No statement assigns `spare`. -/

structure AnalysisResult where
  range_dB : Nat
  cycles : Nat
  low_third : Nat
  mid_third : Nat
  high_third : Nat
  attack_ratio : Nat
  peak_jitter : Nat
  spare : Nat
deriving DecidableEq

def assembleResult (g : AnalysisResult)
    (rangeDB low mid high attack jitter cyc : Nat) : AnalysisResult :=
  { g with range_dB := rangeDB, low_third := low, mid_third := mid,
           high_third := high, attack_ratio := attack, peak_jitter := jitter,
           cycles := cyc }

/-! ## Phase-alternating trigger scan (skipper.c lines 670-723)

The scan walks `levels[1..num_samples)` keeping a parity phase in
`cycles`: odd = finding a peak (trigger on drop below `prev_peak / sq`),
even = finding a trough (trigger on rise above `prev_trough * sq`).
`trigger_points` is the `MAX_CYCLES`-entry array; `writes` is a ghost log
of the indices the code stores through. -/

structure ScanState where
  cycles : Nat
  prevPeak : ℚ
  prevTrough : ℚ
  prevPeakPos : Nat
  prevTroughPos : Nat
  trig : Nat → Nat
  writes : List Nat

def scanInit (l0 : ℚ) : ScanState :=
  { cycles := 0, prevPeak := l0, prevTrough := l0,
    prevPeakPos := 0, prevTroughPos := 0, trig := fun _ => 0, writes := [] }

def scanStep (sq : ℚ) (s : ScanState) (iv : Nat × ℚ) : ScanState :=
  if s.cycles % 2 = 1 then
    -- cycles odd: finding peak level, trigger on trough
    if iv.2 > s.prevPeak then
      { s with prevPeak := iv.2, prevPeakPos := iv.1 }
    else if iv.2 < s.prevPeak / sq then
      let c := s.cycles + 1
      { s with trig := Function.update s.trig s.cycles s.prevPeakPos,
               writes := s.writes ++ [s.cycles],
               prevTrough := iv.2,
               cycles := if c = MAX_CYCLES then c - 2 else c }
    else s
  else
    -- cycles even (initial): finding trough level, trigger on peak
    if iv.2 < s.prevTrough then
      { s with prevTrough := iv.2, prevTroughPos := iv.1 }
    else if iv.2 > s.prevTrough * sq then
      { s with trig := Function.update s.trig s.cycles s.prevTroughPos,
               writes := s.writes ++ [s.cycles],
               prevPeak := iv.2,
               cycles := s.cycles + 1 }
    else s

/-- Run of the scan over the window: `l0 = levels[0]` seeds the state and
`rest = levels[1..)` is consumed with positions starting at 1. -/
def scanRun (sq : ℚ) (l0 : ℚ) (rest : List ℚ) : ScanState :=
  (rest.enumFrom 1).foldl (scanStep sq) (scanInit l0)

/-! ## Attack/decay interval tally (skipper.c lines 727-738)

For `i = 2 .. cycles-1`: odd `i` accumulates an attack interval, even `i`
a decay interval.  The hard abort at line 747 fires when
`attack_count && decay_count` is false. -/

structure Tally where
  attack_count : Nat
  attack_time : Int
  decay_count : Nat
  decay_time : Int

def tallyStep (trig : Nat → Nat) (t : Tally) (i : Nat) : Tally :=
  if i % 2 = 1 then
    { t with attack_time := t.attack_time + ((trig i : Int) - (trig (i - 1) : Int)),
             attack_count := t.attack_count + 1 }
  else
    { t with decay_time := t.decay_time + ((trig i : Int) - (trig (i - 1) : Int)),
             decay_count := t.decay_count + 1 }

def attackDecayTally (trig : Nat → Nat) (cycles : Nat) : Tally :=
  (List.range' 2 (cycles - 2)).foldl (tallyStep trig) ⟨0, 0, 0, 0⟩

/-! ## Results ring (skipper.c lines 389-397)

Each window's tensor lookup is appended at `results_buffer_count++`.
When the count reaches AVERAGE_COUNT the whole buffer is summed, then the
oldest element is popped (memmove + `results_buffer_count--`), and the
threshold comparison at line 417 multiplies by the already decremented
count.  `resultsStep` reports the sum together with that count. -/

def resultsStep (buf : List Int) (v : Int) : List Int × Option (Int × Nat) :=
  let buf' := buf ++ [v]
  if buf'.length = AVERAGE_COUNT then
    (buf'.drop 1, some (buf'.sum, buf'.length - 1))
  else
    (buf', none)

/-- Feed a whole sequence of per-window lookups through the results ring,
collecting every (sum, comparison count) pair that reaches line 417. -/
def resultsRun (vs : List Int) : List Int × List (Int × Nat) :=
  vs.foldl
    (fun (st : List Int × List (Int × Nat)) v =>
      match resultsStep st.1 v with
      | (buf, none) => (buf, st.2)
      | (buf, some e) => (buf, st.2 ++ [e]))
    ([], [])

/-! ## Detection state machine (skipper.c lines 417-468, 529)

`cond` is the music-tendency test `tensor_value > threshold *
results_buffer_count`.  Counter thresholds: MIN_MUSIC_SECS*1000/STEP_MSECS
= 100 windows, MIN_TALK_SECS*1000/STEP_MSECS = 50 windows,
MAX_PEND_SECS*1000/STEP_MSECS = 300 windows. -/

structure DetectState where
  currentMode : Int
  musicUp : Int
  talkUp : Int
  pendUp : Int
  transitionSample : Int
deriving DecidableEq

/-- One window of the transition logic; returns the updated counters and
the detected mode (0 when no confirmation fires this window). -/
def detectStep (sampleRate numSamples : Int) (cond : Bool) (s : DetectState) :
    DetectState × Int :=
  if cond then
    if s.currentMode = MODE_MUSIC then
      -- lines 419-427: if (talk_up_counter && --talk_up_counter) { pend... }
      if s.talkUp ≠ 0 then
        let talkUp := s.talkUp - 1
        if talkUp ≠ 0 then
          let pendUp := s.pendUp + 1
          if pendUp ≥ MAX_PEND_SECS * 1000 / STEP_MSECS then
            ({ s with talkUp := 0, pendUp := pendUp }, MODE_NOTHING)
          else
            ({ s with talkUp := talkUp, pendUp := pendUp }, MODE_NOTHING)
        else
          ({ s with talkUp := 0 }, MODE_NOTHING)
      else
        (s, MODE_NOTHING)
    else
      -- lines 430-441
      let s :=
        if s.musicUp = 0 then
          { s with transitionSample :=
                     numSamples - ((WINDOW_SECONDS + AVERAGE_SECONDS) * sampleRate) / 2,
                   pendUp := 0 }
        else s
      let musicUp := s.musicUp + 1
      if musicUp = MIN_MUSIC_SECS * 1000 / STEP_MSECS then
        ({ s with musicUp := 0, pendUp := s.pendUp + 1 }, MODE_MUSIC)
      else
        ({ s with musicUp := musicUp, pendUp := s.pendUp + 1 }, MODE_NOTHING)
  else
    if s.currentMode = MODE_TALK then
      -- lines 445-453
      if s.musicUp ≠ 0 then
        let musicUp := s.musicUp - 1
        if musicUp ≠ 0 then
          let pendUp := s.pendUp + 1
          if pendUp ≥ MAX_PEND_SECS * 1000 / STEP_MSECS then
            ({ s with musicUp := 0, pendUp := pendUp }, MODE_NOTHING)
          else
            ({ s with musicUp := musicUp, pendUp := pendUp }, MODE_NOTHING)
        else
          ({ s with musicUp := 0 }, MODE_NOTHING)
      else
        (s, MODE_NOTHING)
    else
      -- lines 456-467
      let s :=
        if s.talkUp = 0 then
          { s with transitionSample :=
                     numSamples - ((WINDOW_SECONDS + AVERAGE_SECONDS) * sampleRate) / 2,
                   pendUp := 0 }
        else s
      let talkUp := s.talkUp + 1
      if talkUp = MIN_TALK_SECS * 1000 / STEP_MSECS then
        ({ s with talkUp := 0, pendUp := s.pendUp + 1 }, MODE_TALK)
      else
        ({ s with talkUp := talkUp, pendUp := s.pendUp + 1 }, MODE_NOTHING)

/-- Iterate detectStep over a list of (tendency, num_samples) window inputs,
applying `current_mode = detected_mode` (line 529) after a confirmation, and
logging each window's detected mode. -/
def detectIter (sampleRate : Int) (inputs : List (Bool × Int)) (s : DetectState) :
    DetectState × List Int :=
  match inputs with
  | [] => (s, [])
  | inp :: rest =>
    let r := detectStep sampleRate inp.2 inp.1 s
    let s' := if r.2 ≠ 0 then { r.1 with currentMode := r.2 } else r.1
    let t := detectIter sampleRate rest s'
    (t.1, r.2 :: t.2)

/-! ## Main-loop bookkeeping machine (skipper.c main, lines 323-618)

Models exactly the integer bookkeeping that moves frames: the running
input count, the output ring cursor, the written/discarded totals, the
confirmed/transition samples and the counters.  The per-window tensor
lookup value is the one quantity that depends on the audio, so it is the
per-sample oracle input (consumed only on a window boundary).  The
`exit(1)` paths at lines 491, 520 and 598 freeze the state with `aborted`
set. -/

structure Params where
  sampleRate : Int
  skipMode : Int
  threshold : Int
  keepalive : Bool

def Params.stepSamples (p : Params) : Int := STEP_MSECS * p.sampleRate / 1000
def Params.levelBuffLen (p : Params) : Int := WINDOW_SECONDS * p.sampleRate
def Params.outputBuffLen (p : Params) : Int := OUTPUT_SECONDS * p.sampleRate
def Params.crossfadeBuffLen (p : Params) : Int := CROSSFADE_SECS * p.sampleRate

structure MainState where
  levelIdx : Int
  outIdx : Int
  numSamples : Int
  samplesWritten : Int
  samplesDiscarded : Int
  confirmedSample : Int
  resultsBuf : List Int
  det : DetectState
  aborted : Bool

def mainInit : MainState :=
  { levelIdx := 0, outIdx := 0, numSamples := 0, samplesWritten := 0,
    samplesDiscarded := 0, confirmedSample := 0, resultsBuf := [],
    det := { currentMode := 0, musicUp := 0, talkUp := 0, pendUp := 0,
             transitionSample := 0 },
    aborted := false }

/-- Splice at a confirmed transition (lines 471-523): flush-and-fade-out
when entering a skip, discard-and-fade-in when leaving one; `exit(1)` when
crossfade_start is negative. -/
def spliceStep (p : Params) (detected : Int) (s : MainState) : MainState :=
  if p.skipMode = SKIP_MUSIC ∨ p.skipMode = SKIP_TALK then
    let audioOffset := s.det.transitionSample - s.numSamples + s.outIdx
    let crossfadeStart := audioOffset - p.crossfadeBuffLen / 2
    if p.skipMode = (if detected = MODE_MUSIC then SKIP_MUSIC else SKIP_TALK) then
      if crossfadeStart ≥ 0 then
        { s with samplesWritten := s.samplesWritten + crossfadeStart,
                 outIdx := s.outIdx - crossfadeStart }
      else
        { s with aborted := true }
    else
      if crossfadeStart ≥ 0 then
        { s with samplesDiscarded := s.samplesDiscarded + crossfadeStart,
                 outIdx := s.outIdx - crossfadeStart }
      else
        { s with aborted := true }
  else s

/-- Advance of the confirmed high-water mark (lines 532-533). -/
def confirmStep (p : Params) (s : MainState) : MainState :=
  if s.det.talkUp = 0 ∧ s.det.musicUp = 0 then
    { s with confirmedSample :=
               s.numSamples -
                 ((WINDOW_SECONDS + AVERAGE_SECONDS) * p.sampleRate +
                   p.stepSamples + p.crossfadeBuffLen) / 2 }
  else s

/-- Confirmation handling (lines 470-530): when a mode was detected, run
the splice and then `current_mode = detected_mode` (line 529) unless the
splice aborted. -/
def modeStep (p : Params) (detected : Int) (s : MainState) : MainState :=
  if detected ≠ 0 then
    let t := spliceStep p detected s
    if t.aborted then t
    else { t with det := { t.det with currentMode := detected } }
  else s

/-- Continuation of window processing after the detection step (lines
470-534): the splice on a confirmation, `current_mode = detected_mode`,
and the confirmed-sample update. -/
def processWindowTail (p : Params) (d : DetectState × Int) (s : MainState) : MainState :=
  let s1 := modeStep p d.2 { s with det := d.1 }
  if s1.aborted then s1 else confirmStep p s1

/-- Window processing (lines 381-534): results ring, detection logic, and
the splice at a confirmed transition. -/
def processWindow (p : Params) (v : Int) (s : MainState) : MainState :=
  let r := resultsStep s.resultsBuf v
  let s := { s with resultsBuf := r.1 }
  match r.2 with
  | none => s
  | some (sum, n) =>
    let cond : Bool := sum > p.threshold * (n : Int)
    processWindowTail p (detectStep p.sampleRate s.numSamples cond s.det) s

/-- Flush policy (lines 541-600): keep-alive splice, ordinary flush, or the
buffer-saturated abort. -/
def flushStep (p : Params) (s : MainState) : MainState :=
  let available := s.confirmedSample - s.numSamples + s.outIdx + p.stepSamples / 2
  if s.outIdx = p.outputBuffLen ∨ available ≥ p.sampleRate * 60 then
    if p.keepalive ∧ available > p.crossfadeBuffLen * 2 ∧
       p.skipMode = (if s.det.currentMode = MODE_MUSIC then SKIP_MUSIC else SKIP_TALK) then
      { s with samplesDiscarded := s.samplesDiscarded + (available - p.crossfadeBuffLen),
               samplesWritten := s.samplesWritten + p.crossfadeBuffLen,
               outIdx := s.outIdx - available }
    else if available > 0 then
      if p.skipMode = SKIP_NOTHING ∨
         p.skipMode = (if s.det.currentMode = MODE_MUSIC then SKIP_TALK else SKIP_MUSIC) then
        { s with samplesWritten := s.samplesWritten + available,
                 outIdx := s.outIdx - available }
      else
        { s with samplesDiscarded := s.samplesDiscarded + available,
                 outIdx := s.outIdx - available }
    else
      { s with aborted := true }
  else s

/-- One input sample (lines 342-601): the extractor writes one frame into
the output ring and advances the counters; on a window boundary the
window is analyzed and the level buffer slides by step_samples. -/
def stepSample (p : Params) (s : MainState) (v : Int) : MainState :=
  if s.aborted then s
  else
    let s := { s with levelIdx := s.levelIdx + 1, outIdx := s.outIdx + 1,
                      numSamples := s.numSamples + 1 }
    let s :=
      if s.levelIdx = p.levelBuffLen then
        let s := processWindow p v s
        { s with levelIdx := s.levelIdx - p.stepSamples }
      else s
    if s.aborted then s else flushStep p s

def mainRun (p : Params) (vs : List Int) : MainState :=
  vs.foldl (stepSample p) mainInit

/-- Final EOF drain (lines 604-618): the remaining `output_buffer_index`
frames are written or discarded; the ring is then empty (the process
exits without touching it again). -/
def finalDrain (p : Params) (s : MainState) : MainState :=
  if s.aborted then s
  else if s.outIdx ≠ 0 then
    if p.skipMode = SKIP_NOTHING ∨
       p.skipMode = (if s.det.currentMode = MODE_MUSIC then SKIP_TALK else SKIP_MUSIC) then
      { s with samplesWritten := s.samplesWritten + s.outIdx, outIdx := 0 }
    else
      { s with samplesDiscarded := s.samplesDiscarded + s.outIdx, outIdx := 0 }
  else s

/-- Conservation invariant of the output ring bookkeeping. -/
def conserves (s : MainState) : Prop :=
  s.samplesWritten + s.samplesDiscarded + s.outIdx = s.numSamples

/-! ## Stream adapters (skipper.c lines 930-955, tensor-gen.c lines 358-383)

`write_buff`: when the cursor reaches the end of the buffer it wraps to 0
and bumps `wrapped`, then stores and advances.  Bytes are `Nat` values in
[0, 256). -/

structure Streamer where
  size : Nat
  index : Nat
  wrapped : Nat
  buffer : List Nat

def write_buff (v : Nat) (st : Streamer) : Streamer :=
  let st :=
    if st.index = st.size then { st with index := 0, wrapped := st.wrapped + 1 }
    else st
  { st with buffer := st.buffer.set st.index v, index := st.index + 1 }

def writeAll (st : Streamer) (out : List Nat) : Streamer :=
  out.foldl (fun s v => write_buff v s) st

/-- Fresh sink over a `size`-byte scratch buffer (malloc contents modelled
as zeros; the index dynamics never depend on them). -/
def mkWriter (size : Nat) : Streamer :=
  { size := size, index := 0, wrapped := 0, buffer := List.replicate size 0 }

/-- Final cursor of a `size`-byte ring sink after `n` sequential writes. -/
def ringIndex (size n : Nat) : Nat :=
  if n = 0 then 0 else (n - 1) % size + 1

/-! ## Tensor container (tensor-gen.c write_tensor_file lines 385-442,
skipper.c local_tensor_file lines 957-1005)

The LZW codec is declared in lzwlib.h but implemented elsewhere, so it
enters as abstract parameters: `comp data maxbits` is the byte stream
lzw_compress pushes through its sink callback, and `decomp data` is the
byte stream lzw_decompress pushes (`none` = nonzero error return).  A
single well-formed compressed frame is consumed in full, so the reader
exact-consumption check `reader.index == reader.size` is reflected by
`decomp` operating on the entire payload. -/

def UINT32_MOD : Nat := 4294967296

/-- Little-endian uint32 serialization of the header words. -/
def le32 (n : Nat) : List Nat :=
  [n % 256, n / 256 % 256, n / 65536 % 256, n / 16777216 % 256]

/-- Little-endian uint32 read of the first four bytes. -/
def rd32 (b : List Nat) : Nat :=
  b.getD 0 0 + 256 * b.getD 1 0 + 65536 * b.getD 2 0 + 16777216 * b.getD 3 0

/-- One trial of write_tensor_file's maxbits loop (lines 415-427):
compress into the size-`TENSOR_BYTES` scratch sink and keep this maxbits
if its final `writer.index` beats the best so far.  `writer.wrapped` is
never consulted. -/
def selectStep (comp : List Nat → Nat → List Nat) (t : List Nat)
    (acc : Nat × Nat) (maxbits : Nat) : Nat × Nat :=
  let idx := (writeAll (mkWriter TENSOR_BYTES) (comp t maxbits)).index
  if idx < acc.2 then (maxbits, idx) else acc

/-- Trial loop of write_tensor_file: maxbits runs over [9, 16] and
`smallest_output` starts at `sizeof (tensor_array) + 1`. -/
def selectMaxbits (comp : List Nat → Nat → List Nat) (t : List Nat) : Nat :=
  ((List.range' 9 8).foldl (selectStep comp t) (0, TENSOR_BYTES + 1)).1

/-- write_tensor_file (lines 385-442): 12-byte header (version 1, additive
uint32 checksum over the tensor bytes, dimensions {48,24,16,16}), then the
scratch sink's first `writer.index` bytes after re-running lzw_compress
with the selected maxbits. -/
def write_tensor_file (comp : List Nat → Nat → List Nat) (t : List Nat) : List Nat :=
  let cksum := t.sum % UINT32_MOD
  let header := le32 1 ++ le32 cksum ++ [48, 24, 16, 16]
  let w := writeAll (mkWriter TENSOR_BYTES) (comp t (selectMaxbits comp t))
  header ++ w.buffer.take w.index

/-- local_tensor_file (lines 957-1005): header length/dimensions/version
checks, decompression into a sink sized exactly `sizeof (tensor_array)`
with the exact-fill and no-wrap checks, then the additive checksum
(uint32 `header.checksum -= byte` must end at 0). -/
def local_tensor_file (decomp : List Nat → Option (List Nat)) (bytes : List Nat) :
    Option (List Nat) :=
  if bytes.length < 12 then none
  else
    let version := rd32 (bytes.take 4)
    let cksum := rd32 ((bytes.drop 4).take 4)
    let dims := (bytes.drop 8).take 4
    if dims ≠ [48, 24, 16, 16] ∨ version ≠ 1 then none
    else
      match decomp (bytes.drop 12) with
      | none => none
      | some data =>
        let w := writeAll (mkWriter TENSOR_BYTES) data
        if w.index ≠ w.size ∨ w.wrapped ≠ 0 then none
        else if ((cksum : Int) - ((data.sum : Int))) % (UINT32_MOD : Int) ≠ 0 then none
        else some w.buffer

/-! ## Adversarial codecs used to refute C2/C6 as stated

`padComp`/`padDecomp` satisfy decompress-of-compress = identity but expand
every input by one byte, so compressing the 294912-byte tensor always
overruns the size-`sizeof(tensor)` scratch sink.  `spikeComp` makes the
maxbits = 9 trial overrun the sink (final index 1) while all other trials
produce 100 bytes. -/

def padComp (d : List Nat) (_maxbits : Nat) : List Nat := 0 :: d

def padDecomp (d : List Nat) : Option (List Nat) := some (d.drop 1)

def zeroTensor : List Nat := List.replicate TENSOR_BYTES 0

def spikeComp (_d : List Nat) (maxbits : Nat) : List Nat :=
  if maxbits = 9 then List.replicate (TENSOR_BYTES + 1) 0
  else List.replicate 100 0

def shrinkComp (_d : List Nat) (maxbits : Nat) : List Nat := List.replicate (17 - maxbits) 0

def idComp (d : List Nat) (_maxbits : Nat) : List Nat := d

def idDecomp (d : List Nat) : Option (List Nat) := some d

/-! # Theorems -/


/-! ## C4: crossfade complementarity -/

theorem neg_pos_ediv_eq (r n : Int) (h0 : 0 < r) (h1 : r < n) : (-r) / n = -1 :=
  ((Int.ediv_emod_unique (a := -r) (b := n) (r := n - r) (q := -1)
    (by omega)).mpr ⟨by ring, by omega, by omega⟩).1

theorem ediv_pair (x a n : Int) (hn : 0 < n) :
    a / n + (x * n - a) / n = x - (if n ∣ a then 0 else 1) := by
  have hq := Int.ediv_add_emod a n
  have hr0 : 0 ≤ a % n := Int.emod_nonneg a (by omega)
  have hrn : a % n < n := Int.emod_lt_of_pos a hn
  have hb : x * n - a = (-(a % n)) + n * (x - a / n) := by linear_combination hq
  rw [hb, Int.add_mul_ediv_left (-(a % n)) (x - a / n) (by omega : n ≠ 0)]
  by_cases hd : n ∣ a
  · have hz : a % n = 0 := Int.emod_eq_zero_of_dvd hd
    rw [hz] ; simp [hd]
  · have hz : a % n ≠ 0 := fun h => hd (Int.dvd_of_emod_eq_zero h)
    rw [neg_pos_ediv_eq (a % n) n (by omega) hrn]
    simp [hd] ; ring

theorem tdiv_fade_pair (x p n : Int) (hn : 0 < n) (hp0 : 0 ≤ p) (hpn : p ≤ n) :
    Int.tdiv (x * p) n + Int.tdiv (x * (n - p)) n =
      if n ∣ x * p then x else if 0 < x then x - 1 else x + 1 := by
  rcases le_or_lt 0 x with hx | hx
  · rw [Int.tdiv_eq_ediv (by positivity) hn.le,
        Int.tdiv_eq_ediv (mul_nonneg hx (by omega)) hn.le]
    have h := ediv_pair x (x * p) n hn
    rw [show x * n - x * p = x * (n - p) by ring] at h
    rw [h]
    by_cases hd : n ∣ x * p
    · simp [hd]
    · have hx0 : x ≠ 0 := by rintro rfl ; simp at hd
      simp [hd, if_pos (show 0 < x by omega)]
  · have h := ediv_pair (-x) (-x * p) n hn
    rw [show -x * n - -x * p = -x * (n - p) by ring] at h
    have hd : (n ∣ -x * p) ↔ (n ∣ x * p) := by
      rw [show -x * p = -(x * p) by ring] ; exact dvd_neg
    have key : Int.tdiv (x * p) n + Int.tdiv (x * (n - p)) n
        = -((-x * p) / n + (-x * (n - p)) / n) := by
      rw [show x * p = -(-x * p) by ring, show x * (n - p) = -(-x * (n - p)) by ring,
          Int.neg_tdiv, Int.neg_tdiv,
          Int.tdiv_eq_ediv (mul_nonneg (by omega) hp0) hn.le,
          Int.tdiv_eq_ediv (mul_nonneg (by omega) (by omega)) hn.le]
      ring
    rw [key, h]
    by_cases hc : n ∣ x * p
    · rw [if_pos hc, if_pos (hd.mpr hc)] ; ring
    · rw [if_neg hc, if_neg (fun h' => hc (hd.mp h')), if_neg (by omega : ¬ 0 < x)] ; ring

/-- C4 counterexample: with constant sample x = 1 and fade length n = 2, the
fade-out and fade-in outputs at index 0 sum to 0, not to the original
sample 1, because the C int64 division truncates both halves. -/
theorem claim_C4_counterexample :
    (fade_out (List.replicate 2 1)).getD 0 0 + (fade_in (List.replicate 2 1)).getD 0 0 ≠ 1 := by
  decide

/-- C4 (amended): for a constant int16 sample x, fade length n and index
i < n, the fade-out output x·(n-1-i)/n plus the fade-in output x·(i+1)/n
(both with C truncating division) equals x exactly when n divides
x·(n-1-i); otherwise it equals x-1 for positive x and x+1 for negative x
(so the fades are complementary only up to one LSB of truncation). -/
theorem claim_C4 (x : Int) (n i : Nat) (hi : i < n) :
    (fade_out (List.replicate n x)).getD i 0 + (fade_in (List.replicate n x)).getD i 0 =
      if (n : Int) ∣ x * ((n : Int) - 1 - (i : Int)) then x
      else if 0 < x then x - 1 else x + 1 := by
  have hn0 : 0 < n := by omega
  have hn : (0 : Int) < (n : Int) := by exact_mod_cast hn0
  have hl1 : (fade_out (List.replicate n x)).length = n := by
    simp [fade_out]
  have hl2 : (fade_in (List.replicate n x)).length = n := by
    simp [fade_in]
  rw [List.getD_eq_getElem _ _ (by omega), List.getD_eq_getElem _ _ (by omega)]
  simp only [fade_out, fade_in, List.getElem_mapIdx, List.getElem_replicate,
    List.length_replicate]
  have hp0 : (0 : Int) ≤ (n : Int) - 1 - (i : Int) := by
    have : (i : Int) < (n : Int) := by exact_mod_cast hi
    omega
  exact tdiv_fade_pair x ((n : Int) - 1 - (i : Int)) (n : Int) hn hp0 (by omega)

/-- Witness for C4 at x = 6, n = 4, i = 1 (here 4 divides 6·2 = 12, so the
sum reproduces the sample exactly). -/
theorem claim_C4_witness :
    (fade_out (List.replicate 4 (6 : Int))).getD 1 0 + (fade_in (List.replicate 4 (6 : Int))).getD 1 0 =
      if ((4 : Nat) : Int) ∣ 6 * (((4 : Nat) : Int) - 1 - ((1 : Nat) : Int)) then 6
      else if 0 < (6 : Int) then 6 - 1 else 6 + 1 :=
  claim_C4 6 4 1 (by decide)

/-! ## C8: keep-alive amplitude scaling -/

/-- C8 counterexample: the keep-alive pre-fade scaling maps the int16
sample 4 to 1 (arithmetic right shift by two), not to 4 / 2 = 2 as the
claim states. -/
theorem claim_C8_counterexample :
    (keepAliveScale (List.replicate 4 (4 : Int)) 2 1).getD 0 0 ≠ 4 / 2 := by
  decide

/-- C8 (amended): when the keep-alive crossfade is inserted, each int16
sample of the 2·L_xf frames starting at available/2 − L_xf is scaled to
⌊x/4⌋ (one quarter of its amplitude, the arithmetic right shift by 2 that
`>>= 2` performs) before the fade-in and mix-add. -/
theorem claim_C8 (output : List Int) (available xfLen i : Nat)
    (hi : i < xfLen * 4)
    (hlen : (available / 2 - xfLen) * 2 + xfLen * 4 ≤ output.length) :
    (keepAliveScale output available xfLen).getD i 0 =
      (output.getD ((available / 2 - xfLen) * 2 + i) 0) / 4 := by
  have hstart : (available / 2 - xfLen) * 2 + i < output.length := by omega
  have hdlen : xfLen * 4 ≤ (output.drop ((available / 2 - xfLen) * 2)).length := by
    simp ; omega
  have hres : (keepAliveScale output available xfLen).length = xfLen * 4 := by
    simp [keepAliveScale] ; omega
  rw [List.getD_eq_getElem _ _ (by omega), List.getD_eq_getElem _ _ hstart]
  simp only [keepAliveScale, List.getElem_map, List.getElem_take, List.getElem_drop]
  rw [Int.shiftRight_eq_div_pow]
  norm_num

/-- Witness for C8 at a buffer of constant sample 8 (8 >>> 2 = 2). -/
theorem claim_C8_witness :
    (keepAliveScale (List.replicate 4 (8 : Int)) 2 1).getD 0 0 =
      (List.replicate 4 (8 : Int)).getD ((2 / 2 - 1) * 2 + 0) 0 / 4 :=
  claim_C8 (List.replicate 4 (8 : Int)) 2 1 0 (by decide) (by decide)

/-! ## C9: the spare byte of the analysis record -/

/-- C9 (code bug): analyze_window assigns every field of the stack-local
record except `spare`, so the 8-byte record written to the analysis dump
carries whatever byte the stack held; with nonzero stack residue (here 1)
the written record's spare field is not 0, contradicting the spec's
"spare: u8 – must be 0". -/
theorem claim_C9 :
    (assembleResult ⟨0, 0, 0, 0, 0, 0, 0, 1⟩ 40 120 130 140 128 255 6).spare ≠ 0 := by
  decide

/-! ## C10: trigger-array bounds of the phase-alternating scan -/

theorem scanStep_bounds (sq : ℚ) (s : ScanState) (iv : Nat × ℚ)
    (h1 : s.cycles ≤ 127) (h2 : ∀ w ∈ s.writes, w < 128) :
    (scanStep sq s iv).cycles ≤ 127 ∧ ∀ w ∈ (scanStep sq s iv).writes, w < 128 := by
  unfold scanStep
  by_cases godd : s.cycles % 2 = 1
  · rw [if_pos godd]
    by_cases gup : iv.2 > s.prevPeak
    · rw [if_pos gup] ; exact ⟨h1, h2⟩
    · rw [if_neg gup]
      by_cases gdn : iv.2 < s.prevPeak / sq
      · rw [if_pos gdn]
        refine ⟨?_, ?_⟩
        · simp only [MAX_CYCLES]
          split <;> omega
        · intro w hw
          simp only [List.mem_append, List.mem_singleton] at hw
          rcases hw with hw | hw
          · exact h2 w hw
          · omega
      · rw [if_neg gdn] ; exact ⟨h1, h2⟩
  · rw [if_neg godd]
    by_cases gdn : iv.2 < s.prevTrough
    · rw [if_pos gdn] ; exact ⟨h1, h2⟩
    · rw [if_neg gdn]
      by_cases gup : iv.2 > s.prevTrough * sq
      · rw [if_pos gup]
        refine ⟨by simp ; omega, ?_⟩
        intro w hw
        simp only [List.mem_append, List.mem_singleton] at hw
        rcases hw with hw | hw
        · exact h2 w hw
        · omega
      · rw [if_neg gup] ; exact ⟨h1, h2⟩

theorem scan_foldl_bounds (sq : ℚ) (l : List (Nat × ℚ)) :
    ∀ (s : ScanState), s.cycles ≤ 127 → (∀ w ∈ s.writes, w < 128) →
      (l.foldl (scanStep sq) s).cycles ≤ 127 ∧
      ∀ w ∈ (l.foldl (scanStep sq) s).writes, w < 128 := by
  induction l with
  | nil => intro s h1 h2 ; exact ⟨h1, h2⟩
  | cons a rest ih =>
    intro s h1 h2
    have hstep := scanStep_bounds sq s a h1 h2
    simpa using ih (scanStep sq s a) hstep.1 hstep.2

/-- C10: in every run of analyze_window's phase-alternating scan, each
write to trigger_points uses an index strictly below MAX_CYCLES = 128, and
the cycles value at the end of the scan never exceeds 127: cycles is even
on entry to the trough-search branch (so its increment cannot reach 128),
and the peak-search branch, the only one that can reach 128, immediately
drops cycles back by 2. -/
theorem claim_C10 (sq l0 : ℚ) (rest : List ℚ) :
    (∀ w ∈ (scanRun sq l0 rest).writes, w < MAX_CYCLES) ∧
    (scanRun sq l0 rest).cycles ≤ 127 := by
  have h := scan_foldl_bounds sq (rest.enumFrom 1) (scanInit l0) (by simp [scanInit])
    (by simp [scanInit])
  exact ⟨fun w hw => h.2 w hw, h.1⟩

/-! ## C7: the attack-ratio hard abort is unreachable -/

theorem tally_attack_count (trig : Nat → Nat) :
    ∀ (idxs : List Nat) (t0 : Tally),
      (idxs.foldl (tallyStep trig) t0).attack_count =
        t0.attack_count + idxs.countP (fun i => i % 2 == 1) := by
  intro idxs
  induction idxs with
  | nil => intro t0 ; simp
  | cons a rest ih =>
    intro t0
    by_cases h : a % 2 = 1 <;>
      simp [tallyStep, h, ih, List.countP_cons] <;> omega

theorem tally_decay_count (trig : Nat → Nat) :
    ∀ (idxs : List Nat) (t0 : Tally),
      (idxs.foldl (tallyStep trig) t0).decay_count =
        t0.decay_count + idxs.countP (fun i => !(i % 2 == 1)) := by
  intro idxs
  induction idxs with
  | nil => intro t0 ; simp
  | cons a rest ih =>
    intro t0
    by_cases h : a % 2 = 1 <;>
      simp [tallyStep, h, ih, List.countP_cons] <;> omega

/-- C7: whenever the scan leaves analyze_window with cycles ≥ 4, the
interval walk over trigger indices 2..cycles-1 counts at least one attack
(index 3 is odd) and at least one decay (index 2 is even), so the hard
abort on `!(attack_count && decay_count)` at line 747 never fires. -/
theorem claim_C7 (sq l0 : ℚ) (rest : List ℚ)
    (h4 : 4 ≤ (scanRun sq l0 rest).cycles) :
    0 < (attackDecayTally (scanRun sq l0 rest).trig (scanRun sq l0 rest).cycles).attack_count ∧
    0 < (attackDecayTally (scanRun sq l0 rest).trig (scanRun sq l0 rest).cycles).decay_count := by
  unfold attackDecayTally
  rw [tally_attack_count, tally_decay_count]
  have h3 : 3 ∈ List.range' 2 ((scanRun sq l0 rest).cycles - 2) := by
    rw [List.mem_range']
    exact ⟨1, by omega, by omega⟩
  have h2 : 2 ∈ List.range' 2 ((scanRun sq l0 rest).cycles - 2) := by
    rw [List.mem_range']
    exact ⟨0, by omega, by omega⟩
  constructor
  · have : 0 < (List.range' 2 ((scanRun sq l0 rest).cycles - 2)).countP (fun i => i % 2 == 1) :=
      List.countP_pos.mpr ⟨3, h3, by decide⟩
    simp only [Tally.attack_count] ; omega
  · have : 0 < (List.range' 2 ((scanRun sq l0 rest).cycles - 2)).countP (fun i => !(i % 2 == 1)) :=
      List.countP_pos.mpr ⟨2, h2, by decide⟩
    simp only [Tally.decay_count] ; omega

/-- Witness for C7: with hysteresis factor 2 the level sequence
1, 4, 1, 4, 1 produces exactly 4 trigger cycles. -/
theorem claim_C7_witness :
    4 ≤ (scanRun 2 1 [4, 1, 4, 1]).cycles ∧
    0 < (attackDecayTally (scanRun 2 1 [4, 1, 4, 1]).trig (scanRun 2 1 [4, 1, 4, 1]).cycles).attack_count ∧
    0 < (attackDecayTally (scanRun 2 1 [4, 1, 4, 1]).trig (scanRun 2 1 [4, 1, 4, 1]).cycles).decay_count := by
  have hc : 4 ≤ (scanRun 2 1 [4, 1, 4, 1]).cycles := by
    norm_num [scanRun, scanStep, scanInit, List.enumFrom, List.foldl, MAX_CYCLES]
  exact ⟨hc, claim_C7 2 1 [4, 1, 4, 1] hc⟩


theorem detectStep_music_tick (rate n : Int) (s : DetectState)
    (hmode : s.currentMode ≠ 1) (hlt : s.musicUp + 1 ≠ 100) :
    (detectStep rate n true s).2 = 0 ∧
    (detectStep rate n true s).1.currentMode = s.currentMode ∧
    (detectStep rate n true s).1.musicUp = s.musicUp + 1 ∧
    (detectStep rate n true s).1.talkUp = s.talkUp := by
  unfold detectStep
  simp only [ MODE_MUSIC, MODE_NOTHING, MODE_TALK, MIN_MUSIC_SECS, STEP_MSECS, MAX_PEND_SECS]
  norm_num
  split_ifs <;> simp_all <;> omega

theorem detectStep_music_fire_step (rate n : Int) (s : DetectState)
    (hmode : s.currentMode ≠ 1) (heq : s.musicUp + 1 = 100) :
    (detectStep rate n true s).2 = 1 ∧
    (detectStep rate n true s).1.musicUp = 0 := by
  unfold detectStep
  simp only [ MODE_MUSIC, MODE_NOTHING, MODE_TALK, MIN_MUSIC_SECS, STEP_MSECS, MAX_PEND_SECS]
  norm_num
  split_ifs <;> simp_all <;> omega

theorem detectStep_talk_tick (rate n : Int) (s : DetectState)
    (hmode : s.currentMode ≠ -1) (hlt : s.talkUp + 1 ≠ 50) :
    (detectStep rate n false s).2 = 0 ∧
    (detectStep rate n false s).1.currentMode = s.currentMode ∧
    (detectStep rate n false s).1.talkUp = s.talkUp + 1 := by
  unfold detectStep
  simp only [ MODE_MUSIC, MODE_NOTHING, MODE_TALK, MIN_TALK_SECS, STEP_MSECS, MAX_PEND_SECS]
  norm_num
  split_ifs <;> simp_all <;> omega

theorem detectStep_talk_fire_step (rate n : Int) (s : DetectState)
    (hmode : s.currentMode ≠ -1) (heq : s.talkUp + 1 = 50) :
    (detectStep rate n false s).2 = -1 ∧
    (detectStep rate n false s).1.talkUp = 0 := by
  unfold detectStep
  simp only [ MODE_MUSIC, MODE_NOTHING, MODE_TALK, MIN_TALK_SECS, STEP_MSECS, MAX_PEND_SECS]
  norm_num
  split_ifs <;> simp_all <;> omega



theorem detect_music_run (rate : Int) :
    ∀ (inputs : List (Bool × Int)) (s : DetectState) (m : Nat),
      (∀ p ∈ inputs, p.1 = true) → s.currentMode ≠ 1 → s.musicUp = (m : Int) →
      m + inputs.length = 100 → inputs ≠ [] →
      (detectIter rate inputs s).2 = List.replicate (inputs.length - 1) 0 ++ [1] ∧
      (detectIter rate inputs s).1.musicUp = 0 := by
  intro inputs
  induction inputs with
  | nil => intro s m _ _ _ _ hne ; exact absurd rfl hne
  | cons inp rest ih =>
    intro s m hall hmode hmu hlen _
    have hinp : inp.1 = true := hall inp (List.mem_cons_self inp rest)
    by_cases hr : rest = []
    · subst hr
      have hm99 : s.musicUp + 1 = 100 := by
        rw [hmu]
        have : m = 99 := by simpa using hlen
        subst this ; norm_num
      obtain ⟨h1, h2⟩ := detectStep_music_fire_step rate inp.2 s hmode hm99
      simp only [detectIter, hinp]
      simp [h1, h2]
    · have hpos : 0 < rest.length := List.length_pos.mpr hr
      have hlt : s.musicUp + 1 ≠ 100 := by
        rw [hmu]
        simp only [List.length_cons] at hlen
        intro hcontra
        have : (m : Int) = 99 := by omega
        omega
      obtain ⟨h1, h2, h3, _⟩ := detectStep_music_tick rate inp.2 s hmode hlt
      obtain ⟨k, hk⟩ : ∃ k, rest.length = k + 1 := ⟨rest.length - 1, by omega⟩
      have hih := ih ((detectStep rate inp.2 true s).1) (m + 1)
        (fun p hp => hall p (List.mem_cons_of_mem inp hp))
        (by rw [h2] ; exact hmode)
        (by rw [h3, hmu] ; push_cast ; ring)
        (by simp only [List.length_cons] at hlen ; omega) hr
      simp only [detectIter, hinp]
      rw [h1] at *
      simp only [ne_eq, not_true_eq_false, if_neg, reduceIte]
      constructor
      · simp only [List.length_cons, Nat.add_sub_cancel]
        rw [hih.1, hk]
        simp [List.replicate_succ]
      · exact hih.2



theorem detect_talk_run (rate : Int) :
    ∀ (inputs : List (Bool × Int)) (s : DetectState) (m : Nat),
      (∀ p ∈ inputs, p.1 = false) → s.currentMode ≠ -1 → s.talkUp = (m : Int) →
      m + inputs.length = 50 → inputs ≠ [] →
      (detectIter rate inputs s).2 = List.replicate (inputs.length - 1) 0 ++ [-1] ∧
      (detectIter rate inputs s).1.talkUp = 0 := by
  intro inputs
  induction inputs with
  | nil => intro s m _ _ _ _ hne ; exact absurd rfl hne
  | cons inp rest ih =>
    intro s m hall hmode hmu hlen _
    have hinp : inp.1 = false := hall inp (List.mem_cons_self inp rest)
    by_cases hr : rest = []
    · subst hr
      have hm49 : s.talkUp + 1 = 50 := by
        rw [hmu]
        have : m = 49 := by simpa using hlen
        subst this ; norm_num
      obtain ⟨h1, h2⟩ := detectStep_talk_fire_step rate inp.2 s hmode hm49
      simp only [detectIter, hinp]
      simp [h1, h2]
    · have hpos : 0 < rest.length := List.length_pos.mpr hr
      have hlt : s.talkUp + 1 ≠ 50 := by
        rw [hmu]
        simp only [List.length_cons] at hlen
        intro hcontra
        have : (m : Int) = 49 := by omega
        omega
      obtain ⟨h1, h2, h3⟩ := detectStep_talk_tick rate inp.2 s hmode hlt
      obtain ⟨k, hk⟩ : ∃ k, rest.length = k + 1 := ⟨rest.length - 1, by omega⟩
      have hih := ih ((detectStep rate inp.2 false s).1) (m + 1)
        (fun p hp => hall p (List.mem_cons_of_mem inp hp))
        (by rw [h2] ; exact hmode)
        (by rw [h3, hmu] ; push_cast ; ring)
        (by simp only [List.length_cons] at hlen ; omega) hr
      simp only [detectIter, hinp]
      rw [h1] at *
      simp only [ne_eq, not_true_eq_false, if_neg, reduceIte]
      constructor
      · simp only [List.length_cons, Nat.add_sub_cancel]
        rw [hih.1, hk]
        simp [List.replicate_succ]
      · exact hih.2

/-- C3: starting with music_up_counter = 0 and current_mode not MUSIC, 100
consecutive music-tendency windows produce no confirmation for the first
99 windows and a MUSIC confirmation on exactly the 100th
(MIN_MUSIC_SECS·1000/STEP_MSECS = 100 windows of 200 ms = 20 s), with the
counter reset to 0; symmetrically, from talk_up_counter = 0 and
current_mode not TALK, a TALK confirmation fires on exactly the 50th
sustained talk-tendency window (10 s). -/
theorem claim_C3 (rate : Int) (s t : DetectState) (mIn tIn : List (Bool × Int))
    (hm1 : ∀ p ∈ mIn, p.1 = true) (hm2 : s.currentMode ≠ MODE_MUSIC)
    (hm3 : s.musicUp = 0) (hm4 : mIn.length = 100)
    (ht1 : ∀ p ∈ tIn, p.1 = false) (ht2 : t.currentMode ≠ MODE_TALK)
    (ht3 : t.talkUp = 0) (ht4 : tIn.length = 50) :
    (detectIter rate mIn s).2 = List.replicate 99 0 ++ [ MODE_MUSIC] ∧
    (detectIter rate mIn s).1.musicUp = 0 ∧
    (detectIter rate tIn t).2 = List.replicate 49 0 ++ [ MODE_TALK] ∧
    (detectIter rate tIn t).1.talkUp = 0 := by
  have hm := detect_music_run rate mIn s 0 hm1 hm2 (by rw [hm3] ; norm_num)
    (by omega) (by intro h ; rw [h] at hm4 ; simp at hm4)
  have ht := detect_talk_run rate tIn t 0 ht1 ht2 (by rw [ht3] ; norm_num)
    (by omega) (by intro h ; rw [h] at ht4 ; simp at ht4)
  rw [hm4] at hm
  rw [ht4] at ht
  exact ⟨hm.1, hm.2, ht.1, ht.2⟩

/-- Witness for C3: both counters start at zero in mode NOTHING; the
inputs are 100 all-music windows and 50 all-talk windows. -/
theorem claim_C3_witness :
    (detectIter 44100 (List.replicate 100 ((true, 0) : Bool × Int))
        ⟨0, 0, 0, 0, 0⟩).2 = List.replicate 99 0 ++ [ MODE_MUSIC] ∧
    (detectIter 44100 (List.replicate 100 ((true, 0) : Bool × Int))
        ⟨0, 0, 0, 0, 0⟩).1.musicUp = 0 ∧
    (detectIter 44100 (List.replicate 50 ((false, 0) : Bool × Int))
        ⟨0, 0, 0, 0, 0⟩).2 = List.replicate 49 0 ++ [ MODE_TALK] ∧
    (detectIter 44100 (List.replicate 50 ((false, 0) : Bool × Int))
        ⟨0, 0, 0, 0, 0⟩).1.talkUp = 0 :=
  claim_C3 44100 ⟨0, 0, 0, 0, 0⟩ ⟨0, 0, 0, 0, 0⟩ _ _
    (fun p hp => by have := List.eq_of_mem_replicate hp ; rw [this])
    (by decide) rfl (by simp)
    (fun p hp => by have := List.eq_of_mem_replicate hp ; rw [this])
    (by decide) rfl (by simp)


theorem resultsStep_small (buf : List Int) (v : Int) (h : buf.length + 1 ≠ 25) :
    resultsStep buf v = (buf ++ [v], none) := by
  unfold resultsStep
  rw [if_neg (by simpa [AVERAGE_COUNT] using h)]

theorem resultsStep_full (buf : List Int) (v : Int) (h : buf.length + 1 = 25) :
    resultsStep buf v = ((buf ++ [v]).drop 1, some ((buf ++ [v]).sum, 24)) := by
  unfold resultsStep
  rw [if_pos (by simpa [AVERAGE_COUNT] using h)]
  simp [h]

theorem resultsRun_append_one (ws : List Int) (v : Int) :
    resultsRun (ws ++ [v]) =
      match resultsStep (resultsRun ws).1 v with
      | (buf, none) => (buf, (resultsRun ws).2)
      | (buf, some e) => (buf, (resultsRun ws).2 ++ [e]) := by
  unfold resultsRun
  rw [List.foldl_append]
  simp

theorem resultsRun_spec (vs : List Int) :
    (resultsRun vs).1 = vs.drop (vs.length - 24) ∧
    (resultsRun vs).2 = (List.range (vs.length - 24)).map
      (fun j => (((vs.drop j).take 25).sum, 24)) := by
  induction vs using List.reverseRecOn with
  | nil => simp [resultsRun]
  | append_singleton ws v ih =>
    obtain ⟨ih1, ih2⟩ := ih
    have hdlen : (resultsRun ws).1.length = ws.length - (ws.length - 24) := by
      rw [ih1, List.length_drop]
    rw [resultsRun_append_one]
    by_cases hm : ws.length ≤ 23
    · rw [resultsStep_small _ _ (by omega)]
      have h0 : ws.length - 24 = 0 := by omega
      have h0' : (ws ++ [v]).length - 24 = 0 := by simp ; omega
      refine ⟨?_, ?_⟩
      · rw [ih1, h0, h0', List.drop_zero, List.drop_zero]
      · rw [ih2, h0, h0'] ; simp
    · have h24 : (resultsRun ws).1.length + 1 = 25 := by omega
      rw [resultsStep_full _ _ h24]
      dsimp only
      have hke : (ws ++ [v]).length - 24 = (ws.length - 24) + 1 := by simp ; omega
      refine ⟨?_, ?_⟩
      · rw [ih1]
        rw [List.drop_append_of_le_length (by simp [List.length_drop] ; omega)]
        rw [List.drop_drop, hke]
        rw [List.drop_append_of_le_length (by omega)]
      · rw [ih2, hke, List.range_succ, List.map_append]
        congr 1
        · apply List.map_congr_left
          intro j hj
          rw [List.mem_range] at hj
          rw [List.drop_append_of_le_length (by omega)]
          rw [List.take_append_of_le_length (by simp [List.length_drop] ; omega)]
        · simp only [List.map_cons, List.map_nil]
          rw [ih1]
          rw [List.drop_append_of_le_length (by omega)]
          rw [List.take_of_length_le (by simp [List.length_drop] ; omega)]



/-- C5 counterexample: feeding 26 windows of value 1, the sum used on
window 26 (the second useful sum) is 25, not the 24 that a
"subsequent sums stay at length 24" reading predicts: the push happens
before the sum on every window, so every useful sum is over 25 values. -/
theorem claim_C5_counterexample :
    (resultsRun (List.replicate 26 1)).2.getD 1 (0, 0) = (25, 24) ∧
    (25 : Int) ≠ (List.replicate 24 (1 : Int)).sum := by
  constructor
  · decide
  · simp [List.sum_replicate]

/-- C5 (amended): once the ring has filled, the smoothed score emitted on
every window (the first useful one and all subsequent ones) is the sum of
the 25 most recent lookups — the new value is pushed before the sum and
the oldest is popped only afterwards — and the count n used in the
threshold comparison `S > threshold · n` is results_buffer_count after
the pop, namely 24. -/
theorem claim_C5 (vs : List Int) :
    (resultsRun vs).2 = (List.range (vs.length - 24)).map
      (fun j => (((vs.drop j).take 25).sum, 24)) :=
  (resultsRun_spec vs).2


theorem spliceStep_conserves (p : Params) (detected : Int) (s : MainState)
    (h : conserves s) : conserves (spliceStep p detected s) := by
  unfold conserves at *
  unfold spliceStep
  by_cases h1 : (p.skipMode = SKIP_MUSIC ∨ p.skipMode = SKIP_TALK)
  · rw [if_pos h1]
    dsimp only
    by_cases h2 : (p.skipMode = (if detected = MODE_MUSIC then SKIP_MUSIC else SKIP_TALK))
    · rw [if_pos h2]
      by_cases h3 : (s.det.transitionSample - s.numSamples + s.outIdx - p.crossfadeBuffLen / 2 ≥ 0)
      · rw [if_pos h3] ; dsimp only ; omega
      · rw [if_neg h3] ; dsimp only ; omega
    · rw [if_neg h2]
      by_cases h3 : (s.det.transitionSample - s.numSamples + s.outIdx - p.crossfadeBuffLen / 2 ≥ 0)
      · rw [if_pos h3] ; dsimp only ; omega
      · rw [if_neg h3] ; dsimp only ; omega
  · rw [if_neg h1] ; exact h

theorem confirmStep_conserves (p : Params) (s : MainState)
    (h : conserves s) : conserves (confirmStep p s) := by
  unfold conserves at *
  unfold confirmStep
  by_cases h1 : (s.det.talkUp = 0 ∧ s.det.musicUp = 0)
  · rw [if_pos h1] ; dsimp only ; omega
  · rw [if_neg h1] ; exact h

theorem modeStep_conserves (p : Params) (detected : Int) (s : MainState)
    (h : conserves s) : conserves (modeStep p detected s) := by
  unfold modeStep
  by_cases h1 : detected ≠ 0
  · rw [if_pos h1]
    dsimp only
    have hs := spliceStep_conserves p detected s h
    by_cases h2 : (spliceStep p detected s).aborted
    · rw [if_pos h2] ; exact hs
    · rw [if_neg h2] ; exact hs
  · rw [if_neg h1] ; exact h

theorem processWindowTail_conserves (p : Params) (d : DetectState × Int) (s : MainState)
    (h : conserves s) : conserves (processWindowTail p d s) := by
  unfold processWindowTail
  dsimp only
  have h0 : conserves { s with det := d.1 } := h
  have hm := modeStep_conserves p d.2 { s with det := d.1 } h0
  by_cases h2 : (modeStep p d.2 { s with det := d.1 }).aborted
  · rw [if_pos h2] ; exact hm
  · rw [if_neg h2] ; exact confirmStep_conserves p _ hm

theorem processWindow_conserves (p : Params) (v : Int) (s : MainState)
    (h : conserves s) : conserves (processWindow p v s) := by
  unfold processWindow
  rcases hr : resultsStep s.resultsBuf v with ⟨buf, e⟩
  rcases e with _ | ⟨sum, n⟩
  · exact h
  · dsimp only
    exact processWindowTail_conserves p _ _ h



theorem flushStep_conserves (p : Params) (s : MainState)
    (h : conserves s) : conserves (flushStep p s) := by
  unfold conserves at *
  unfold flushStep
  by_cases hC : (s.outIdx = p.outputBuffLen ∨
      s.confirmedSample - s.numSamples + s.outIdx + p.stepSamples / 2 ≥ p.sampleRate * 60)
  · rw [if_pos hC]
    by_cases hK : (p.keepalive = true ∧
        s.confirmedSample - s.numSamples + s.outIdx + p.stepSamples / 2 > p.crossfadeBuffLen * 2 ∧
        p.skipMode = (if s.det.currentMode = MODE_MUSIC then SKIP_MUSIC else SKIP_TALK))
    · rw [if_pos hK] ; dsimp only ; omega
    · rw [if_neg hK]
      by_cases hA : (s.confirmedSample - s.numSamples + s.outIdx + p.stepSamples / 2 > 0)
      · rw [if_pos hA]
        by_cases hW : (p.skipMode = SKIP_NOTHING ∨
            p.skipMode = (if s.det.currentMode = MODE_MUSIC then SKIP_TALK else SKIP_MUSIC))
        · rw [if_pos hW] ; dsimp only ; omega
        · rw [if_neg hW] ; dsimp only ; omega
      · rw [if_neg hA] ; dsimp only ; omega
  · rw [if_neg hC] ; exact h

theorem conserves_levelIdx (x : MainState) (e : Int) :
    conserves { x with levelIdx := e } ↔ conserves x := Iff.rfl

theorem stepSample_conserves (p : Params) (s : MainState) (v : Int)
    (h : conserves s) : conserves (stepSample p s v) := by
  by_cases ha : s.aborted
  · simp only [stepSample, if_pos ha] ; exact h
  · simp only [stepSample, if_neg ha]
    have hcb :
        conserves { s with
          levelIdx := s.levelIdx + 1
          outIdx := s.outIdx + 1
          numSamples := s.numSamples + 1 } := by
      unfold conserves at * ; dsimp only ; omega
    split
    · split
      · exact (conserves_levelIdx _ _).mpr (processWindow_conserves p v _ hcb)
      · exact flushStep_conserves p _
          ((conserves_levelIdx _ _).mpr (processWindow_conserves p v _ hcb))
    · exact flushStep_conserves p _ hcb

theorem mainRun_foldl_conserves (p : Params) (vs : List Int) :
    ∀ (s : MainState), conserves s → conserves (vs.foldl (stepSample p) s) := by
  induction vs with
  | nil => intro s h ; exact h
  | cons v rest ih =>
    intro s h
    exact ih (stepSample p s v) (stepSample_conserves p s v h)

theorem finalDrain_conserves (p : Params) (s : MainState)
    (h : conserves s) : conserves (finalDrain p s) := by
  unfold conserves at *
  unfold finalDrain
  by_cases ha : s.aborted
  · rw [if_pos ha] ; exact h
  · rw [if_neg ha]
    by_cases hz : s.outIdx ≠ 0
    · rw [if_pos hz]
      by_cases hW : (p.skipMode = SKIP_NOTHING ∨
          p.skipMode = (if s.det.currentMode = MODE_MUSIC then SKIP_TALK else SKIP_MUSIC))
      · rw [if_pos hW] ; dsimp only ; omega
      · rw [if_neg hW] ; dsimp only ; omega
    · rw [if_neg hz] ; exact h

theorem finalDrain_empties (p : Params) (s : MainState) (ha : s.aborted = false) :
    (finalDrain p s).outIdx = 0 := by
  unfold finalDrain
  rw [if_neg (by simp [ha])]
  by_cases hz : s.outIdx ≠ 0
  · rw [if_pos hz]
    by_cases hW : (p.skipMode = SKIP_NOTHING ∨
        p.skipMode = (if s.det.currentMode = MODE_MUSIC then SKIP_TALK else SKIP_MUSIC))
    · rw [if_pos hW]
    · rw [if_neg hW]
  · rw [if_neg hz] ; omega

/-- C1: sample conservation.  Across every path that moves frames —
per-sample ingestion, ordinary flush, keep-alive splice, confirmed
fade-out/fade-in, and the final EOF drain — the invariant
`samples_written + samples_discarded + output_buffer_index = num_samples`
holds after every processed input sample, and after the final drain (when
the run did not abort) `samples_written + samples_discarded` equals the
total number of input frames. -/
theorem claim_C1 (p : Params) (vs : List Int) :
    conserves (mainRun p vs) ∧
    conserves (finalDrain p (mainRun p vs)) ∧
    ((mainRun p vs).aborted = false →
      (finalDrain p (mainRun p vs)).samplesWritten +
        (finalDrain p (mainRun p vs)).samplesDiscarded =
      (finalDrain p (mainRun p vs)).numSamples) := by
  have h0 : conserves mainInit := by unfold conserves mainInit ; norm_num
  have h1 : conserves (mainRun p vs) := mainRun_foldl_conserves p vs mainInit h0
  have h2 : conserves (finalDrain p (mainRun p vs)) := finalDrain_conserves p _ h1
  refine ⟨h1, h2, fun ha => ?_⟩
  have h3 := finalDrain_empties p (mainRun p vs) ha
  unfold conserves at h2
  omega

/-- Witness for C1: a 30-sample run at a tiny sample rate (the machine's
arithmetic does not constrain the rate), pass-through mode; the run does
not abort, so the drained equality follows from the theorem. -/
theorem claim_C1_witness :
    (mainRun ⟨5, 0, 0, false⟩ (List.replicate 30 0)).aborted = false ∧
    (finalDrain ⟨5, 0, 0, false⟩ (mainRun ⟨5, 0, 0, false⟩ (List.replicate 30 0))).samplesWritten +
        (finalDrain ⟨5, 0, 0, false⟩ (mainRun ⟨5, 0, 0, false⟩ (List.replicate 30 0))).samplesDiscarded =
      (finalDrain ⟨5, 0, 0, false⟩ (mainRun ⟨5, 0, 0, false⟩ (List.replicate 30 0))).numSamples :=
  ⟨by decide, (claim_C1 ⟨5, 0, 0, false⟩ (List.replicate 30 0)).2.2 (by decide)⟩


theorem take_succ_set (l : List Nat) (i : Nat) (v : Nat) (h : i < l.length) :
    (l.set i v).take (i + 1) = l.take i ++ [v] := by
  rw [List.set_eq_take_cons_drop v h]
  rw [List.take_append_eq_append_take]
  rw [List.take_of_length_le (by simp only [List.length_take] ; omega)]
  have h1 : i + 1 - (l.take i).length = 1 := by simp only [List.length_take] ; omega
  rw [h1]
  rfl

theorem writeAll_cons (st : Streamer) (v : Nat) (rest : List Nat) :
    writeAll st (v :: rest) = writeAll (write_buff v st) rest := by
  simp [writeAll]

theorem write_buff_size (v : Nat) (st : Streamer) : (write_buff v st).size = st.size := by
  unfold write_buff
  by_cases hc : st.index = st.size
  · rw [if_pos hc]
  · rw [if_neg hc]

theorem writeAll_nowrap : ∀ (out : List Nat) (st : Streamer),
    st.index + out.length ≤ st.size → st.buffer.length = st.size →
    (writeAll st out).index = st.index + out.length ∧
    (writeAll st out).wrapped = st.wrapped ∧
    (writeAll st out).size = st.size ∧
    (writeAll st out).buffer.length = st.size ∧
    (writeAll st out).buffer.take (st.index + out.length) =
      st.buffer.take st.index ++ out := by
  intro out
  induction out with
  | nil =>
    intro st h1 h2
    refine ⟨by simp [writeAll], by simp [writeAll], by simp [writeAll],
      by simp [writeAll, h2], by simp [writeAll]⟩
  | cons v rest ih =>
    intro st h1 h2
    have hlt : st.index < st.size := by simp at h1 ; omega
    have hwb : write_buff v st =
        { st with buffer := st.buffer.set st.index v, index := st.index + 1 } := by
      unfold write_buff
      rw [if_neg (by omega)]
    have hrec := ih (write_buff v st)
      (by rw [hwb] ; simp at h1 ⊢ ; omega)
      (by rw [hwb] ; simp [h2])
    rw [hwb] at hrec
    dsimp only at hrec
    obtain ⟨k1, k2, k3, k4, k5⟩ := hrec
    rw [writeAll_cons, hwb]
    have hl : st.index + (v :: rest).length = st.index + 1 + rest.length := by
      simp ; omega
    refine ⟨by rw [k1, hl], k2, k3, k4, ?_⟩
    rw [hl, k5, take_succ_set _ _ _ (by omega)]
    simp



theorem tensor_bytes_val : TENSOR_BYTES = 294912 := by norm_num [TENSOR_BYTES]

theorem ringIndex_succ (k : Nat) :
    ringIndex TENSOR_BYTES (k + 1) =
      (if ringIndex TENSOR_BYTES k = TENSOR_BYTES then 0 else ringIndex TENSOR_BYTES k) + 1 := by
  unfold ringIndex
  rw [tensor_bytes_val]
  split_ifs <;> try contradiction
  all_goals omega

theorem writeAll_index (out : List Nat) : ∀ (st : Streamer) (k : Nat),
    st.size = TENSOR_BYTES → st.index = ringIndex TENSOR_BYTES k →
    (writeAll st out).index = ringIndex TENSOR_BYTES (k + out.length) := by
  induction out with
  | nil =>
    intro st k h1 h2
    simpa [writeAll] using h2
  | cons v rest ih =>
    intro st k h1 h2
    rw [writeAll_cons]
    have hone : (write_buff v st).index = ringIndex TENSOR_BYTES (k + 1) := by
      unfold write_buff
      rw [ringIndex_succ]
      by_cases hc : st.index = st.size
      · rw [if_pos hc]
        dsimp only
        rw [if_pos (by rw [← h2, hc, h1])]
      · rw [if_neg hc]
        dsimp only
        rw [if_neg (fun hcon => hc (by rw [h2, hcon, h1])), h2]
    have := ih (write_buff v st) (k + 1) (by rw [write_buff_size, h1]) hone
    rw [this]
    congr 1
    simp
    omega

theorem trial_index (out : List Nat) :
    (writeAll (mkWriter TENSOR_BYTES) out).index = ringIndex TENSOR_BYTES out.length := by
  have := writeAll_index out (mkWriter TENSOR_BYTES) 0 rfl (by simp [mkWriter, ringIndex])
  simpa using this

theorem ringIndex_of_le (n : Nat) (h : n ≤ TENSOR_BYTES) : ringIndex TENSOR_BYTES n = n := by
  unfold ringIndex
  rw [tensor_bytes_val] at *
  split_ifs <;> omega

theorem ringIndex_wrap_one : ringIndex TENSOR_BYTES (TENSOR_BYTES + 1) = 1 := by
  unfold ringIndex
  rw [tensor_bytes_val]
  norm_num



theorem rd32_le32 (n : Nat) (h : n < UINT32_MOD) : rd32 (le32 n) = n := by
  unfold rd32 le32 UINT32_MOD at *
  simp only [List.getD_cons_zero, List.getD_cons_succ]
  omega

theorem selfold_spec (f : Nat → Nat) : ∀ (l : List Nat) (acc : Nat × Nat),
    (l.foldl (fun a mb => if f mb < a.2 then (mb, f mb) else a) acc = acc ∨
      ((l.foldl (fun a mb => if f mb < a.2 then (mb, f mb) else a) acc).1 ∈ l ∧
       (l.foldl (fun a mb => if f mb < a.2 then (mb, f mb) else a) acc).2 =
         f (l.foldl (fun a mb => if f mb < a.2 then (mb, f mb) else a) acc).1)) ∧
    (l.foldl (fun a mb => if f mb < a.2 then (mb, f mb) else a) acc).2 ≤ acc.2 ∧
    ∀ mb ∈ l, (l.foldl (fun a mb => if f mb < a.2 then (mb, f mb) else a) acc).2 ≤ f mb := by
  intro l
  induction l with
  | nil =>
    intro acc
    refine ⟨Or.inl rfl, le_refl _, by simp⟩
  | cons a rest ih =>
    intro acc
    simp only [List.foldl_cons]
    obtain ⟨i1, i2, i3⟩ := ih (if f a < acc.2 then (a, f a) else acc)
    have hacc2 : (if f a < acc.2 then (a, f a) else acc).2 ≤ acc.2 := by
      by_cases hfa : f a < acc.2
      · rw [if_pos hfa] ; exact le_of_lt hfa
      · rw [if_neg hfa]
    have haccfa : (if f a < acc.2 then (a, f a) else acc).2 ≤ f a := by
      by_cases hfa : f a < acc.2
      · rw [if_pos hfa]
      · rw [if_neg hfa] ; exact Nat.le_of_not_lt hfa
    refine ⟨?_, le_trans i2 hacc2, ?_⟩
    · rcases i1 with i1 | ⟨m1, m2⟩
      · rw [i1]
        by_cases hfa : f a < acc.2
        · rw [if_pos hfa]
          exact Or.inr ⟨by simp, by simp⟩
        · rw [if_neg hfa]
          exact Or.inl rfl
      · exact Or.inr ⟨List.mem_cons_of_mem a m1, m2⟩
    · intro mb hmb
      rcases List.mem_cons.mp hmb with hmb | hmb
      · subst hmb
        exact le_trans i2 haccfa
      · exact i3 mb hmb




theorem writeAll_buffer_length (out : List Nat) :
    ∀ st, (writeAll st out).buffer.length = st.buffer.length := by
  induction out with
  | nil => intro st ; simp [writeAll]
  | cons v rest ih =>
    intro st
    rw [writeAll_cons, ih]
    unfold write_buff
    by_cases hc : st.index = st.size
    · rw [if_pos hc] ; simp
    · rw [if_neg hc] ; simp

/-- C6 (amended): write_tensor_file performs no wrapped-trial skip; the
maxbits it selects is simply one whose final writer index is smallest over
all eight trials (first smallest wins).  When no trial overruns the
scratch sink — final index then equals compressed length — the selected
maxbits is one with smallest compressed output, as the claim intends. -/
theorem claim_C6 (comp : List Nat → Nat → List Nat) (t : List Nat)
    (hnw : ∀ mb, 9 ≤ mb → mb ≤ 16 → (comp t mb).length ≤ TENSOR_BYTES) :
    (9 ≤ selectMaxbits comp t ∧ selectMaxbits comp t ≤ 16) ∧
    (∀ mb, 9 ≤ mb → mb ≤ 16 →
      (comp t (selectMaxbits comp t)).length ≤ (comp t mb).length) := by
  have hf : ∀ mb, 9 ≤ mb → mb ≤ 16 →
      (writeAll (mkWriter TENSOR_BYTES) (comp t mb)).index = (comp t mb).length := by
    intro mb h1 h2
    rw [trial_index, ringIndex_of_le _ (hnw mb h1 h2)]
  obtain ⟨h1, h2, h3⟩ := selfold_spec
    (fun mb => (writeAll (mkWriter TENSOR_BYTES) (comp t mb)).index)
    (List.range' 9 8) (0, TENSOR_BYTES + 1)
  set r := (List.range' 9 8).foldl
      (fun a mb => if (writeAll (mkWriter TENSOR_BYTES) (comp t mb)).index < a.2
        then (mb, (writeAll (mkWriter TENSOR_BYTES) (comp t mb)).index) else a)
      (0, TENSOR_BYTES + 1) with hr
  have hsel : selectMaxbits comp t = r.1 := rfl
  have h9 : (9 : Nat) ∈ List.range' 9 8 := by decide
  have hbound : r.2 ≤ (comp t 9).length := by
    have := h3 9 h9
    rwa [hf 9 (by norm_num) (by norm_num)] at this
  rcases h1 with h1 | ⟨hm, he⟩
  · exfalso
    rw [h1] at hbound
    have h9le := hnw 9 (by norm_num) (by norm_num)
    simp at hbound
    omega
  · have hmb : 9 ≤ r.1 ∧ r.1 ≤ 16 := by
      rw [List.mem_range'] at hm
      obtain ⟨i, hi, hieq⟩ := hm
      omega
    refine ⟨⟨by rw [hsel] ; exact hmb.1, by rw [hsel] ; exact hmb.2⟩, ?_⟩
    intro mb hmb1 hmb2
    rw [hsel]
    have hrlen : (comp t r.1).length = r.2 := by
      rw [← hf r.1 hmb.1 hmb.2]
      exact he.symm
    have hmbmem : mb ∈ List.range' 9 8 := List.mem_range'.mpr ⟨mb - 9, by omega, by omega⟩
    have hle := h3 mb hmbmem
    rw [hf mb hmb1 hmb2] at hle
    omega

/-- Witness for C6: a compressor whose outputs shrink with maxbits, none
overrunning the scratch sink; the conclusion is read off at maxbits 12. -/
theorem claim_C6_witness :
    9 ≤ selectMaxbits shrinkComp [] ∧ selectMaxbits shrinkComp [] ≤ 16 ∧
    (shrinkComp [] (selectMaxbits shrinkComp [])).length ≤ (shrinkComp [] 12).length := by
  have h := claim_C6 shrinkComp []
    (fun mb _ _ => by simp only [shrinkComp, List.length_replicate, tensor_bytes_val] ; omega)
  exact ⟨h.1.1, h.1.2, h.2 12 (by norm_num) (by norm_num)⟩



theorem selectMaxbits_eq (comp : List Nat → Nat → List Nat) (t : List Nat) :
    selectMaxbits comp t
      = ((List.range' 9 8).foldl (selectStep comp t) (0, TENSOR_BYTES + 1)).1 := rfl

/-- C6 counterexample: a compressor whose maxbits = 9 trial overruns the
sizeof(tensor) scratch sink (wrapping it, final index 1) while every other
trial emits 100 bytes.  write_tensor_file selects maxbits 9 anyway — there
is no wrapped-trial skip — even though non-wrapped trials existed. -/
theorem claim_C6_counterexample :
    selectMaxbits spikeComp zeroTensor = 9 ∧
    TENSOR_BYTES < (spikeComp zeroTensor 9).length ∧
    (spikeComp zeroTensor 10).length ≤ TENSOR_BYTES := by
  have h9 : (writeAll (mkWriter TENSOR_BYTES) (spikeComp zeroTensor 9)).index = 1 := by
    rw [trial_index]
    rw [show spikeComp zeroTensor 9 = List.replicate (TENSOR_BYTES + 1) 0 from rfl,
        List.length_replicate, ringIndex_wrap_one]
  have hother : ∀ mb, mb ≠ 9 →
      (writeAll (mkWriter TENSOR_BYTES) (spikeComp zeroTensor mb)).index = 100 := by
    intro mb h
    rw [trial_index]
    have hc : spikeComp zeroTensor mb = List.replicate 100 0 := by
      unfold spikeComp
      rw [if_neg h]
    rw [hc, List.length_replicate]
    exact ringIndex_of_le 100 (by rw [tensor_bytes_val] ; omega)
  have hstep9 : selectStep spikeComp zeroTensor (0, TENSOR_BYTES + 1) 9 = (9, 1) := by
    unfold selectStep
    dsimp only
    rw [h9]
    rw [if_pos (by rw [tensor_bytes_val] ; norm_num)]
  have hstay : ∀ (l : List Nat), (∀ mb ∈ l, mb ≠ 9) →
      l.foldl (selectStep spikeComp zeroTensor) (9, 1) = (9, 1) := by
    intro l
    induction l with
    | nil => intro _ ; rfl
    | cons a rest ih =>
      intro hmem
      rw [List.foldl_cons]
      have hstepa : selectStep spikeComp zeroTensor (9, 1) a = (9, 1) := by
        unfold selectStep
        dsimp only
        rw [hother a (hmem a (List.mem_cons_self a rest))]
        rw [if_neg (by norm_num)]
      rw [hstepa]
      exact ih (fun mb hmb => hmem mb (List.mem_cons_of_mem a hmb))
  refine ⟨?_, ?_, ?_⟩
  · rw [selectMaxbits_eq]
    rw [show List.range' 9 8 = 9 :: List.range' 10 7 from rfl, List.foldl_cons, hstep9]
    rw [hstay (List.range' 10 7) (fun mb hmb => by
      obtain ⟨i, hi, heq⟩ := List.mem_range'.mp hmb
      omega)]
  · rw [show spikeComp zeroTensor 9 = List.replicate (TENSOR_BYTES + 1) 0 from rfl,
        List.length_replicate]
    omega
  · have hc : spikeComp zeroTensor 10 = List.replicate 100 0 := by
      unfold spikeComp
      rw [if_neg (by norm_num)]
    rw [hc, List.length_replicate, tensor_bytes_val]
    omega

theorem header_take4 (a b : Nat) (out : List Nat) :
    ((le32 a ++ le32 b ++ [48, 24, 16, 16]) ++ out).take 4 = le32 a := rfl

theorem header_drop4take4 (a b : Nat) (out : List Nat) :
    (((le32 a ++ le32 b ++ [48, 24, 16, 16]) ++ out).drop 4).take 4 = le32 b := rfl

theorem header_drop8take4 (a b : Nat) (out : List Nat) :
    (((le32 a ++ le32 b ++ [48, 24, 16, 16]) ++ out).drop 8).take 4 = [48, 24, 16, 16] := rfl

theorem header_drop12 (a b : Nat) (out : List Nat) :
    ((le32 a ++ le32 b ++ [48, 24, 16, 16]) ++ out).drop 12 = out := rfl

theorem header_length (a b : Nat) (out : List Nat) :
    ((le32 a ++ le32 b ++ [48, 24, 16, 16]) ++ out).length = 12 + out.length := by
  simp [le32]
  omega

theorem cksum_lt (n : Nat) : n % UINT32_MOD < UINT32_MOD := by
  unfold UINT32_MOD ; omega

/-- C2 (amended): round-trip of the tensor container.  For a 294912-byte
tensor, writing with write_tensor_file and loading with local_tensor_file
returns exactly the tensor — version, dimensions, exact consumption and
fill, and the additive checksum all validate — provided the codec pair
satisfies decompress-of-compress = identity AND the compressed output for
the selected maxbits fits in sizeof(tensor) bytes (no writer wrap, an
assumption the claim omits and the code does not check). -/
theorem claim_C2 (comp : List Nat → Nat → List Nat) (decomp : List Nat → Option (List Nat))
    (t : List Nat) (ht : t.length = TENSOR_BYTES)
    (hrt : ∀ d maxbits, decomp (comp d maxbits) = some d)
    (hfit : (comp t (selectMaxbits comp t)).length ≤ TENSOR_BYTES) :
    local_tensor_file decomp (write_tensor_file comp t) = some t := by
  obtain ⟨w1, w2, w3, w4, w5⟩ := writeAll_nowrap (comp t (selectMaxbits comp t))
    (mkWriter TENSOR_BYTES) (by simpa [mkWriter] using hfit) (by simp [mkWriter])
  have hpay : (writeAll (mkWriter TENSOR_BYTES) (comp t (selectMaxbits comp t))).buffer.take
      (writeAll (mkWriter TENSOR_BYTES) (comp t (selectMaxbits comp t))).index
      = comp t (selectMaxbits comp t) := by
    rw [w1]
    simpa [mkWriter] using w5
  have hwrite : write_tensor_file comp t =
      (le32 1 ++ le32 (t.sum % UINT32_MOD) ++ [48, 24, 16, 16]) ++
        comp t (selectMaxbits comp t) := by
    unfold write_tensor_file
    dsimp only
    rw [hpay]
  rw [hwrite]
  unfold local_tensor_file
  rw [if_neg (by rw [header_length] ; omega)]
  rw [header_take4, header_drop4take4, header_drop8take4, header_drop12]
  rw [rd32_le32 1 (by unfold UINT32_MOD ; omega), rd32_le32 _ (cksum_lt _)]
  rw [if_neg (by simp)]
  rw [hrt t (selectMaxbits comp t)]
  obtain ⟨u1, u2, u3, u4, u5⟩ := writeAll_nowrap t (mkWriter TENSOR_BYTES)
    (by simp [mkWriter, ht]) (by simp [mkWriter])
  have hbuf : (writeAll (mkWriter TENSOR_BYTES) t).buffer = t := by
    have h5 : (writeAll (mkWriter TENSOR_BYTES) t).buffer.take t.length = t := by
      simpa [mkWriter] using u5
    calc (writeAll (mkWriter TENSOR_BYTES) t).buffer
        = (writeAll (mkWriter TENSOR_BYTES) t).buffer.take
            (writeAll (mkWriter TENSOR_BYTES) t).buffer.length := (List.take_length _).symm
      _ = (writeAll (mkWriter TENSOR_BYTES) t).buffer.take t.length := by
          rw [u4] ; simp [mkWriter, ht]
      _ = t := h5
  dsimp only
  have hc1 : ¬((writeAll (mkWriter TENSOR_BYTES) t).index ≠ (writeAll (mkWriter TENSOR_BYTES) t).size ∨ (writeAll (mkWriter TENSOR_BYTES) t).wrapped ≠ 0) := by
    rw [u1, u2, u3]
    simp [mkWriter, ht]
  rw [if_neg hc1]
  rw [if_neg ?hcksum]
  case hcksum =>
    simp only [ne_eq, Decidable.not_not]
    have : ((t.sum % UINT32_MOD : Nat) : Int) = (t.sum : Int) % (UINT32_MOD : Nat) := by
      push_cast
      ring
    rw [this]
    simp [Int.sub_emod]
  rw [hbuf]





/-- Witness for C2: the identity codec trivially satisfies the round-trip
and no-wrap hypotheses on the all-zero tensor. -/
theorem claim_C2_witness :
    zeroTensor.length = TENSOR_BYTES ∧
    (idComp zeroTensor (selectMaxbits idComp zeroTensor)).length ≤ TENSOR_BYTES ∧
    local_tensor_file idDecomp (write_tensor_file idComp zeroTensor) = some zeroTensor :=
  ⟨by simp [zeroTensor], by simp [idComp, zeroTensor],
   claim_C2 idComp idDecomp zeroTensor (by simp [zeroTensor]) (fun d _ => rfl)
     (by simp [idComp, zeroTensor])⟩

theorem replicate_zero_sum (n : Nat) : (List.replicate n (0:Nat)).sum = 0 := by
  induction n with
  | zero => rfl
  | succ k ih => rw [List.replicate_succ, List.sum_cons, ih]

theorem pad_roundtrip_fails :
    local_tensor_file padDecomp (write_tensor_file padComp zeroTensor) = none := by
  have hsum : zeroTensor.sum % UINT32_MOD = 0 := by
    rw [show zeroTensor = List.replicate TENSOR_BYTES 0 from rfl, replicate_zero_sum,
        Nat.zero_mod]
  have hidx : (writeAll (mkWriter TENSOR_BYTES)
      (padComp zeroTensor (selectMaxbits padComp zeroTensor))).index = 1 := by
    rw [trial_index]
    have hlen : (padComp zeroTensor (selectMaxbits padComp zeroTensor)).length =
        TENSOR_BYTES + 1 := by
      rw [show padComp zeroTensor (selectMaxbits padComp zeroTensor) = 0 :: zeroTensor from rfl,
          List.length_cons, show zeroTensor = List.replicate TENSOR_BYTES 0 from rfl,
          List.length_replicate]
    rw [hlen, ringIndex_wrap_one]
  have hblen : (writeAll (mkWriter TENSOR_BYTES)
      (padComp zeroTensor (selectMaxbits padComp zeroTensor))).buffer.length =
      TENSOR_BYTES := by
    rw [writeAll_buffer_length]
    rw [show (mkWriter TENSOR_BYTES).buffer = List.replicate TENSOR_BYTES 0 from rfl,
        List.length_replicate]
  set pay := (writeAll (mkWriter TENSOR_BYTES)
      (padComp zeroTensor (selectMaxbits padComp zeroTensor))).buffer.take
    (writeAll (mkWriter TENSOR_BYTES)
      (padComp zeroTensor (selectMaxbits padComp zeroTensor))).index with hpay
  have hplen : pay.length = 1 := by
    rw [hpay, hidx]
    simp only [List.length_take, hblen]
    rw [tensor_bytes_val]
    omega
  have hwrite : write_tensor_file padComp zeroTensor =
      (le32 1 ++ le32 0 ++ [48, 24, 16, 16]) ++ pay := by
    unfold write_tensor_file
    rw [hsum]
  rw [hwrite]
  unfold local_tensor_file
  rw [if_neg (by rw [header_length] ; omega)]
  rw [header_take4, header_drop4take4, header_drop8take4, header_drop12]
  rw [rd32_le32 1 (by unfold UINT32_MOD ; omega), rd32_le32 0 (by unfold UINT32_MOD ; omega)]
  rw [if_neg (by simp)]
  have hdec : padDecomp pay = some [] := by
    unfold padDecomp
    rw [List.drop_eq_nil_of_le (by omega)]
  rw [hdec]
  dsimp only
  rw [if_pos]
  exact Or.inl (by
    show (0:Nat) ≠ TENSOR_BYTES
    rw [tensor_bytes_val]
    omega)

/-- C2 counterexample: the round-trip claim as stated — load of save
succeeds for every tensor under only the assumption that the codec pair
decompresses what it compresses — is false.  The codec `padComp`/`padDecomp`
satisfies decompress-of-compress = identity but expands its input by one
byte, so compressing the 294912-byte all-zero tensor overruns (wraps) the
sizeof(tensor) scratch sink, the stored payload is one byte, and loading
the written file fails. -/
theorem claim_C2_counterexample :
    ¬ (∀ (comp : List Nat → Nat → List Nat) (decomp : List Nat → Option (List Nat))
        (t : List Nat), t.length = TENSOR_BYTES →
        (∀ d maxbits, decomp (comp d maxbits) = some d) →
        local_tensor_file decomp (write_tensor_file comp t) = some t) := by
  intro hclaim
  have h := hclaim padComp padDecomp zeroTensor (by simp [zeroTensor]) (fun d _ => rfl)
  rw [pad_roundtrip_fails] at h
  exact Option.noConfusion h

end Skipper
